import Mathlib

/-!
Shallow embedding of the hybrid local-search SAT solvers of this repository:
`HybridSATSolver` (Fix-p-Experiment/sat_solver.py) and
`EnhancedHybridSATSolver` (mix-and-pure-experiment/enhanced_sat_solver.py).

Python's global `random` module is modelled by explicit streams: a stream of
booleans for `random.choice([True, False])`, a stream of rationals for
`random.random()`, and a stream of naturals for the index drawn by
`random.choice` over a list (the drawn element is the list entry at
`index % length`).  A cursor record tracks how far each stream has been
consumed, so both solvers read the same ordered sequence of draws.
Python floats are modelled by exact rationals.
-/

/-- A clause is a list of signed literals, exactly as in the Python lists. -/
abbrev Clause := List Int

/-- The three explicit random streams standing for Python's `random` module. -/
structure Rng where
  coins : Nat → Bool
  gates : Nat → ℚ
  picks : Nat → Nat

/-- Cursors into the three streams: how many draws of each kind were consumed. -/
structure RS where
  ci : Nat
  gi : Nat
  ki : Nat
deriving Repr, DecidableEq

/-- Python `[random.choice([True, False]) for _ in range(n + 1)]`: the 1-indexed
model vector drawn from the coin stream starting at cursor `ci`. -/
def drawModel (coins : Nat → Bool) (ci : Nat) (n : Nat) : List Bool :=
  (List.range (n + 1)).map (fun i => coins (ci + i))

/-- Python `self.model[var] = not self.model[var]` (flip_variable in both classes). -/
def flipVar (model : List Bool) (var : Nat) : List Bool :=
  model.set var (!(model.getD var false))

/-- Method `variable_frequency` of both classes: a `defaultdict(int)` keyed by
`abs(literal)`, iterated in Python's insertion order, hence an association
list in first-occurrence order. -/
def bump (freq : List (Nat × Nat)) (v : Nat) : List (Nat × Nat) :=
  match freq with
  | [] => [(v, 1)]
  | (w, c) :: rest => if w = v then (w, c + 1) :: rest else (w, c) :: bump rest v

def variable_frequency (unsat : List Clause) : List (Nat × Nat) :=
  unsat.foldl (fun f c => c.foldl (fun f l => bump f l.natAbs) f) []

/-- Method `select_variable_greedy` (identical in both classes): `None` when the
frequency table is empty, otherwise a uniformly drawn member of the set of
maximal-frequency variables; the draw is the pick-stream value modulo the
candidate count. -/
def select_variable_greedy (unsat : List Clause) (pick : Nat) : Option Nat :=
  let freq := variable_frequency unsat
  if freq.isEmpty then none
  else
    let maxFreq := (freq.map Prod.snd).foldl max 0
    let candidates := (freq.filter (fun vc => vc.2 = maxFreq)).map Prod.fst
    some (candidates.getD (pick % candidates.length) 0)

/-- The deduplicated, first-occurrence-ordered pool of variables touched by
the unsatisfied clauses (`variables = set(); ... variables.add(abs(literal))`). -/
def collectVars (unsat : List Clause) : List Nat :=
  unsat.foldl (fun acc c =>
    c.foldl (fun acc l => if l.natAbs ∈ acc then acc else acc ++ [l.natAbs]) acc) []

/-- Method `select_variable_random` (identical in both classes). -/
def select_variable_random (unsat : List Clause) (pick : Nat) : Option Nat :=
  let vars := collectVars unsat
  if vars.isEmpty then none
  else some (vars.getD (pick % vars.length) 0)

/-- Run results, one constructor per `return` site of `solve`:
`return True, flip, self.model`, the `var is None` branch
`return False, flip, None`, and the fall-through `return False, self.max_flips, None`. -/
inductive Outcome where
  | satisfied (flips : Nat) (model : List Bool)
  | inconsistent (flips : Nat)
  | exhausted (flips : Nat)
deriving Repr, DecidableEq

/-- Result of one iteration of a solve loop: either a `return`, or the next
state together with the gate value (`random.random() < p`) of the iteration. -/
inductive StepResult (σ : Type) where
  | stop (o : Outcome) (tr : List Bool)
  | next (st : σ) (rs : RS) (gate : Bool)
deriving Repr, DecidableEq

/-- State of `EnhancedHybridSATSolver`: the fields its `__init__` stores. -/
structure EnhancedHybridSATSolver where
  clauses : List Clause
  num_vars : Nat
  p : ℚ
  max_flips : Nat
  restart_frequency : Nat
  adaptive_p : Bool
  model : List Bool
  flips_since_restart : Nat
deriving Repr, DecidableEq

namespace EnhancedHybridSATSolver

/-- Constructor `EnhancedHybridSATSolver.__init__`: stores every argument verbatim and
draws the initial model; returns the state and the advanced coin cursor. -/
def init (clauses : List Clause) (num_vars : Nat) (p : ℚ) (max_flips : Nat)
    (restart_frequency : Nat) (adaptive_p : Bool) (coins : Nat → Bool) (ci : Nat) :
    EnhancedHybridSATSolver × Nat :=
  ({ clauses := clauses, num_vars := num_vars, p := p, max_flips := max_flips,
     restart_frequency := restart_frequency, adaptive_p := adaptive_p,
     model := drawModel coins ci num_vars, flips_since_restart := 0 },
   ci + num_vars + 1)

/-- The per-literal test `(literal > 0 and val) or (literal < 0 and not val)`. -/
def litSat (model : List Bool) (l : Int) : Bool :=
  (decide (l > 0) && model.getD l.natAbs false) ||
  (decide (l < 0) && !(model.getD l.natAbs false))

/-- A clause is satisfied when some literal passes the test (the inner loop
with `break`). -/
def clauseSat (model : List Bool) (c : Clause) : Bool :=
  c.any (litSat model)

/-- Method `is_satisfied`. -/
def is_satisfied (st : EnhancedHybridSATSolver) : Bool :=
  st.clauses.all (clauseSat st.model)

/-- Method `get_unsatisfied_clauses`. -/
def get_unsatisfied_clauses (st : EnhancedHybridSATSolver) : List Clause :=
  st.clauses.filter (fun c => !(clauseSat st.model c))

/-- Method `adjust_p`: raise p by 0.05 capped at 1 above the 0.3·num_vars band,
lower it by 0.05 floored at 0 below the 0.1·num_vars band, else unchanged. -/
def adjust_p (st : EnhancedHybridSATSolver) : EnhancedHybridSATSolver :=
  let num_unsat := st.get_unsatisfied_clauses.length
  if (num_unsat : ℚ) > st.num_vars * (3 / 10) then
    { st with p := min (st.p + 1 / 20) 1 }
  else if (num_unsat : ℚ) < st.num_vars * (1 / 10) then
    { st with p := max (st.p - 1 / 20) 0 }
  else st

/-- Method `restart`: redraw the whole model from the coin stream. -/
def restart (st : EnhancedHybridSATSolver) (rng : Rng) (rs : RS) :
    EnhancedHybridSATSolver × RS :=
  ({ st with model := drawModel rng.coins rs.ci st.num_vars },
   { rs with ci := rs.ci + st.num_vars + 1 })

/-- One iteration of `solve` at loop counter `flip`: satisfaction checks,
optional `adjust_p`, the probability gate, selection, the `None` branch,
flip, restart-counter increment, and the restart check. -/
def solveStep (rng : Rng) (flip : Nat) (st : EnhancedHybridSATSolver) (rs : RS) :
    StepResult EnhancedHybridSATSolver :=
  if st.is_satisfied then .stop (.satisfied flip st.model) []
  else
    let unsat := st.get_unsatisfied_clauses
    if unsat.isEmpty then .stop (.satisfied flip st.model) []
    else
      let st1 := if st.adaptive_p then st.adjust_p else st
      let gate := decide (rng.gates rs.gi < st1.p)
      let rs1 : RS := { rs with gi := rs.gi + 1 }
      match (if gate then select_variable_greedy unsat (rng.picks rs1.ki)
             else select_variable_random unsat (rng.picks rs1.ki)) with
      | none => .stop (.inconsistent flip) [gate]
      | some var =>
        let rs2 : RS := { rs1 with ki := rs1.ki + 1 }
        let st2 := { st1 with model := flipVar st1.model var,
                              flips_since_restart := st1.flips_since_restart + 1 }
        if st2.flips_since_restart ≥ st2.restart_frequency then
          let r := st2.restart rng rs2
          .next { r.1 with flips_since_restart := 0 } r.2 gate
        else .next st2 rs2 gate

/-- The loop `for flip in range(1, max_flips + 1)` with `k` iterations left,
returning the outcome and the trace of gate values of the iterations that
ran a selector (`true` = greedy path taken). -/
def solveLoop (rng : Rng) : Nat → Nat → EnhancedHybridSATSolver → RS →
    Outcome × List Bool
  | 0, _, st, _ => (.exhausted st.max_flips, [])
  | k + 1, flip, st, rs =>
    match solveStep rng flip st rs with
    | .stop o tr => (o, tr)
    | .next st' rs' gate =>
      let r := solveLoop rng k (flip + 1) st' rs'
      (r.1, gate :: r.2)

/-- Method `solve`. -/
def solve (st : EnhancedHybridSATSolver) (rng : Rng) (rs : RS) : Outcome × List Bool :=
  solveLoop rng st.max_flips 1 st rs

end EnhancedHybridSATSolver

/-- State of `HybridSATSolver` (Fix-p-Experiment/sat_solver.py): the fields
its `__init__` stores. -/
structure HybridSATSolver where
  clauses : List Clause
  num_vars : Nat
  p : ℚ
  max_flips : Nat
  model : List Bool
deriving Repr, DecidableEq

namespace HybridSATSolver

/-- Constructor `HybridSATSolver.__init__`. -/
def init (clauses : List Clause) (num_vars : Nat) (p : ℚ) (max_flips : Nat)
    (coins : Nat → Bool) (ci : Nat) : HybridSATSolver × Nat :=
  ({ clauses := clauses, num_vars := num_vars, p := p, max_flips := max_flips,
     model := drawModel coins ci num_vars }, ci + num_vars + 1)

/-- The per-literal test written as `if literal > 0 and val: ... elif
literal < 0 and not val: ...` in this variant. -/
def litSat (model : List Bool) (l : Int) : Bool :=
  if decide (l > 0) && model.getD l.natAbs false then true
  else if decide (l < 0) && !(model.getD l.natAbs false) then true
  else false

def clauseSat (model : List Bool) (c : Clause) : Bool :=
  c.any (litSat model)

/-- Method `is_satisfied`. -/
def is_satisfied (st : HybridSATSolver) : Bool :=
  st.clauses.all (clauseSat st.model)

/-- Method `get_unsatisfied_clauses`. -/
def get_unsatisfied_clauses (st : HybridSATSolver) : List Clause :=
  st.clauses.filter (fun c => !(clauseSat st.model c))

/-- One iteration of the plain `solve` loop: no adaptation, no restarts. -/
def solveStep (rng : Rng) (flip : Nat) (st : HybridSATSolver) (rs : RS) :
    StepResult HybridSATSolver :=
  if st.is_satisfied then .stop (.satisfied flip st.model) []
  else
    let unsat := st.get_unsatisfied_clauses
    if unsat.isEmpty then .stop (.satisfied flip st.model) []
    else
      let gate := decide (rng.gates rs.gi < st.p)
      let rs1 : RS := { rs with gi := rs.gi + 1 }
      match (if gate then select_variable_greedy unsat (rng.picks rs1.ki)
             else select_variable_random unsat (rng.picks rs1.ki)) with
      | none => .stop (.inconsistent flip) [gate]
      | some var =>
        .next { st with model := flipVar st.model var }
          { rs1 with ki := rs1.ki + 1 } gate

/-- The loop `for flip in range(1, max_flips + 1)` with `k` iterations left. -/
def solveLoop (rng : Rng) : Nat → Nat → HybridSATSolver → RS → Outcome × List Bool
  | 0, _, st, _ => (.exhausted st.max_flips, [])
  | k + 1, flip, st, rs =>
    match solveStep rng flip st rs with
    | .stop o tr => (o, tr)
    | .next st' rs' gate =>
      let r := solveLoop rng k (flip + 1) st' rs'
      (r.1, gate :: r.2)

/-- Method `solve`. -/
def solve (st : HybridSATSolver) (rng : Rng) (rs : RS) : Outcome × List Bool :=
  solveLoop rng st.max_flips 1 st rs

end HybridSATSolver

/-! ## Concrete instances used by witnesses -/

/-- Concrete state exercising the adaptive controller at the upper band
boundary: 3 unsatisfied clauses with num_vars = 10. -/
def bandState : EnhancedHybridSATSolver :=
  { clauses := [[1], [1], [1]], num_vars := 10, p := 1 / 2, max_flips := 5,
    restart_frequency := 3, adaptive_p := true, model := [false, false],
    flips_since_restart := 0 }

/-- A concrete random source: coins always true, gate draws 0, picks 0. -/
def rngAllTrue : Rng := ⟨fun _ => true, fun _ => 0, fun _ => 0⟩

/-- Fresh stream cursors. -/
def rs0 : RS := ⟨0, 0, 0⟩

/-- Concrete state one applied flip away from a restart. -/
def preRestartState : EnhancedHybridSATSolver :=
  { clauses := [[1]], num_vars := 1, p := 0, max_flips := 5, restart_frequency := 1,
    adaptive_p := false, model := [false, false], flips_since_restart := 0 }

/-- A concrete state configured with fixed p = 0. -/
def pZeroState : EnhancedHybridSATSolver :=
  { clauses := [[1]], num_vars := 1, p := 0, max_flips := 3, restart_frequency := 1000,
    adaptive_p := false, model := [false, false], flips_since_restart := 0 }

/-! ## Helper lemmas -/

/-- If the enhanced step returns via a `satisfied` return site, the reported
flip count is the current loop counter, the model is the current model, and
no selector was consulted. -/
theorem enhStep_stop_satisfied (rng : Rng) (flip : Nat) (st : EnhancedHybridSATSolver)
    (rs : RS) (f : Nat) (m : List Bool) (tr : List Bool)
    (h : EnhancedHybridSATSolver.solveStep rng flip st rs = .stop (.satisfied f m) tr) :
    f = flip ∧ m = st.model ∧ tr = [] := by
  unfold EnhancedHybridSATSolver.solveStep at h
  split at h
  · injection h with h1 h2
    injection h1 with ha hb
    exact ⟨ha.symm, hb.symm, h2.symm⟩
  · simp only at h
    split at h
    · injection h with h1 h2
      injection h1 with ha hb
      exact ⟨ha.symm, hb.symm, h2.symm⟩
    · split at h
      · injection h with h1
        exact Outcome.noConfusion h1
      · split at h
        · split at h <;> exact StepResult.noConfusion h
        · split at h <;> exact StepResult.noConfusion h

/-! ## C1: constructor validation -/

/-- C1 counterexample: constructing with p = 2 (outside [0,1]),
max_flips = 0 and restart_frequency = 0 (non-positive), and a formula
containing an empty clause succeeds and stores every value verbatim —
construction does not fail. -/
theorem C1_counterexample :
    (EnhancedHybridSATSolver.init [[1], []] 1 2 0 0 false (fun _ => false) 0).1 =
      { clauses := [[1], []], num_vars := 1, p := 2, max_flips := 0,
        restart_frequency := 0, adaptive_p := false, model := [false, false],
        flips_since_restart := 0 } := by
  rfl

/-- C1 (amended): the constructor performs no validation at all; it accepts
any parameters and formula, storing every field verbatim — it neither fails
nor clamps nor coerces. -/
theorem C1_constructor_stores_verbatim (clauses : List Clause) (num_vars : Nat) (p : ℚ)
    (max_flips rf : Nat) (ap : Bool) (coins : Nat → Bool) (ci : Nat) :
    ((EnhancedHybridSATSolver.init clauses num_vars p max_flips rf ap coins ci).1.clauses
        = clauses) ∧
    ((EnhancedHybridSATSolver.init clauses num_vars p max_flips rf ap coins ci).1.num_vars
        = num_vars) ∧
    ((EnhancedHybridSATSolver.init clauses num_vars p max_flips rf ap coins ci).1.p = p) ∧
    ((EnhancedHybridSATSolver.init clauses num_vars p max_flips rf ap coins ci).1.max_flips
        = max_flips) ∧
    ((EnhancedHybridSATSolver.init clauses num_vars p max_flips rf ap coins ci).1.restart_frequency
        = rf) ∧
    ((EnhancedHybridSATSolver.init clauses num_vars p max_flips rf ap coins ci).1.adaptive_p
        = ap) :=
  ⟨rfl, rfl, rfl, rfl, rfl, rfl⟩

/-! ## C4: adaptive probability controller -/

/-- C4: above the band p rises by exactly 0.05 capped at 1; below the band it
falls by exactly 0.05 floored at 0; on the closed band, both boundaries
included, the state (hence p) is unchanged. -/
theorem C4_adaptive_controller (st : EnhancedHybridSATSolver) :
    (((st.get_unsatisfied_clauses.length : ℚ) > st.num_vars * (3 / 10)) →
        st.adjust_p.p = min (st.p + 1 / 20) 1) ∧
    (((st.get_unsatisfied_clauses.length : ℚ) < st.num_vars * (1 / 10)) →
        st.adjust_p.p = max (st.p - 1 / 20) 0) ∧
    ((st.num_vars * (1 / 10) ≤ (st.get_unsatisfied_clauses.length : ℚ) ∧
      (st.get_unsatisfied_clauses.length : ℚ) ≤ st.num_vars * (3 / 10)) →
        st.adjust_p = st) := by
  refine ⟨fun h => ?_, fun h => ?_, fun h => ?_⟩
  · unfold EnhancedHybridSATSolver.adjust_p
    rw [if_pos h]
  · unfold EnhancedHybridSATSolver.adjust_p
    rw [if_neg (by exact not_lt.2 (le_of_lt (lt_of_lt_of_le h (by
      have : (0 : ℚ) ≤ st.num_vars := by positivity
      nlinarith)))), if_pos h]
  · unfold EnhancedHybridSATSolver.adjust_p
    rw [if_neg (not_lt.2 h.2), if_neg (not_lt.2 h.1)]

/-- C4 witness: at the exact upper boundary (3 = 0.3 × 10) the controller
leaves the state unchanged. -/
theorem C4_witness : bandState.adjust_p = bandState :=
  (C4_adaptive_controller bandState).2.2 (by
    have h : bandState.get_unsatisfied_clauses.length = 3 := rfl
    rw [h]
    norm_num [bandState])

/-! ## C2: reported flip count on satisfaction -/

/-- Each applied flip contributes exactly one trace entry, so a `satisfied`
return at loop counter start `flip` reports `flip` plus the applied flips. -/
theorem enh_solveLoop_satisfied_flip (rng : Rng) :
    ∀ (k flip : Nat) (st : EnhancedHybridSATSolver) (rs : RS) (f : Nat) (m : List Bool),
      (EnhancedHybridSATSolver.solveLoop rng k flip st rs).1 = .satisfied f m →
      f = flip + (EnhancedHybridSATSolver.solveLoop rng k flip st rs).2.length := by
  intro k
  induction k with
  | zero =>
    intro flip st rs f m h
    simp [EnhancedHybridSATSolver.solveLoop] at h
  | succ k ih =>
    intro flip st rs f m h
    rw [EnhancedHybridSATSolver.solveLoop] at h ⊢
    cases hstep : EnhancedHybridSATSolver.solveStep rng flip st rs with
    | stop o tr =>
      rw [hstep] at h
      dsimp only at h ⊢
      subst h
      obtain ⟨hf, _, htr⟩ := enhStep_stop_satisfied rng flip st rs f m tr hstep
      rw [hf, htr]
      simp
    | next st' rs' gate =>
      rw [hstep] at h
      dsimp only at h ⊢
      have hrec := ih (flip + 1) st' rs' f m h
      rw [List.length_cons]
      omega

/-- C2 counterexample: the formula `[[1]]` with an all-true initial
assignment is already satisfied, yet `solve` reports a flip count of 1,
not 0 — the returned count is the 1-based loop index. -/
theorem C2_counterexample :
    ((EnhancedHybridSATSolver.init [[1]] 1 (1 / 2) 5 1000 false (fun _ => true) 0).1.solve
        rngAllTrue rs0).1 = .satisfied 1 [true, true] ∧ (1 : Nat) ≠ 0 :=
  ⟨rfl, by decide⟩

/-- C2 (amended): the flip count reported with a Satisfied outcome equals the
number of flips actually applied plus one (the loop counter is 1-based and
is returned at the start-of-iteration check); in particular a formula already
satisfied by the initial assignment yields Satisfied with reported count 1. -/
theorem C2_flip_count_off_by_one (st : EnhancedHybridSATSolver) (rng : Rng) (rs : RS)
    (f : Nat) (m : List Bool) (h : (st.solve rng rs).1 = .satisfied f m) :
    f = (st.solve rng rs).2.length + 1 := by
  unfold EnhancedHybridSATSolver.solve at h ⊢
  have := enh_solveLoop_satisfied_flip rng st.max_flips 1 st rs f m h
  omega

/-- C2 witness: on the already-satisfied instance the reported count 1 equals
applied flips (0, the trace is empty) plus one. -/
theorem C2_witness :
    (1 : Nat) =
      (((EnhancedHybridSATSolver.init [[1]] 1 (1 / 2) 5 1000 false (fun _ => true) 0).1.solve
          rngAllTrue rs0).2.length + 1) :=
  C2_flip_count_off_by_one
    (EnhancedHybridSATSolver.init [[1]] 1 (1 / 2) 5 1000 false (fun _ => true) 0).1
    rngAllTrue rs0 1 [true, true] rfl

/-! ## C6: oracle agreement -/

/-- The two oracle views agree (helper shared across developments). -/
theorem enh_oracle_agree (st : EnhancedHybridSATSolver) :
    st.is_satisfied = true ↔ st.get_unsatisfied_clauses = [] := by
  simp [EnhancedHybridSATSolver.is_satisfied,
        EnhancedHybridSATSolver.get_unsatisfied_clauses,
        List.all_eq_true, List.filter_eq_nil_iff]

/-- C6: the whole-formula satisfaction check answers true exactly when the
computed set of unsatisfied clauses is empty. -/
theorem C6_oracle_agreement (st : EnhancedHybridSATSolver) :
    st.is_satisfied = true ↔ st.get_unsatisfied_clauses = [] :=
  enh_oracle_agree st

/-! ## Selector totality helpers -/

theorem bump_ne_nil (f : List (Nat × Nat)) (v : Nat) : bump f v ≠ [] := by
  cases f with
  | nil => simp [bump]
  | cons hd tl =>
    obtain ⟨w, c⟩ := hd
    simp only [bump]
    split <;> simp

theorem foldl_bump_ne_nil (c : Clause) :
    ∀ (f : List (Nat × Nat)), f ≠ [] →
      c.foldl (fun f l => bump f l.natAbs) f ≠ [] := by
  induction c with
  | nil => intro f hf; exact hf
  | cons l c ih => intro f _; exact ih (bump f l.natAbs) (bump_ne_nil f l.natAbs)

theorem foldl_bump_ne_nil_of_clause (c : Clause) (hc : c ≠ []) (f : List (Nat × Nat)) :
    c.foldl (fun f l => bump f l.natAbs) f ≠ [] := by
  cases c with
  | nil => exact absurd rfl hc
  | cons l c => exact foldl_bump_ne_nil c (bump f l.natAbs) (bump_ne_nil f l.natAbs)

theorem variable_frequency_ne_nil :
    ∀ (unsat : List Clause), (∃ c ∈ unsat, c ≠ []) → variable_frequency unsat ≠ [] := by
  have key : ∀ (unsat : List Clause) (f : List (Nat × Nat)),
      (f ≠ [] ∨ ∃ c ∈ unsat, c ≠ []) →
      unsat.foldl (fun f c => c.foldl (fun f l => bump f l.natAbs) f) f ≠ [] := by
    intro unsat
    induction unsat with
    | nil =>
      intro f h
      rcases h with h | ⟨c, hc, _⟩
      · exact h
      · exact absurd hc (by simp)
    | cons d rest ih =>
      intro f h
      rcases h with h | ⟨c, hc, hcne⟩
      · exact ih _ (Or.inl (foldl_bump_ne_nil d f h))
      · rcases List.mem_cons.mp hc with rfl | hmem
        · exact ih _ (Or.inl (foldl_bump_ne_nil_of_clause c hcne f))
        · exact ih _ (Or.inr ⟨c, hmem, hcne⟩)
  intro unsat h
  exact key unsat [] (Or.inr h)

theorem collect_step_ne_nil (c : Clause) :
    ∀ (acc : List Nat), acc ≠ [] →
      c.foldl (fun acc l => if l.natAbs ∈ acc then acc else acc ++ [l.natAbs]) acc ≠ [] := by
  induction c with
  | nil => intro acc h; exact h
  | cons l c ih =>
    intro acc h
    apply ih
    dsimp only
    split
    · exact h
    · simp

theorem collect_step_ne_nil_of_clause (c : Clause) (hc : c ≠ []) (acc : List Nat) :
    c.foldl (fun acc l => if l.natAbs ∈ acc then acc else acc ++ [l.natAbs]) acc ≠ [] := by
  cases c with
  | nil => exact absurd rfl hc
  | cons l c =>
    apply collect_step_ne_nil c
    dsimp only
    split
    · rename_i hmem
      exact List.ne_nil_of_mem hmem
    · simp

theorem collectVars_ne_nil :
    ∀ (unsat : List Clause), (∃ c ∈ unsat, c ≠ []) → collectVars unsat ≠ [] := by
  have key : ∀ (unsat : List Clause) (acc : List Nat),
      (acc ≠ [] ∨ ∃ c ∈ unsat, c ≠ []) →
      unsat.foldl (fun acc c =>
        c.foldl (fun acc l => if l.natAbs ∈ acc then acc else acc ++ [l.natAbs]) acc) acc ≠ [] := by
    intro unsat
    induction unsat with
    | nil =>
      intro acc h
      rcases h with h | ⟨c, hc, _⟩
      · exact h
      · exact absurd hc (by simp)
    | cons d rest ih =>
      intro acc h
      rcases h with h | ⟨c, hc, hcne⟩
      · exact ih _ (Or.inl (collect_step_ne_nil d acc h))
      · rcases List.mem_cons.mp hc with rfl | hmem
        · exact ih _ (Or.inl (collect_step_ne_nil_of_clause c hcne acc))
        · exact ih _ (Or.inr ⟨c, hmem, hcne⟩)
  intro unsat h
  exact key unsat [] (Or.inr h)

/-- The greedy selector signals "no candidate" only on a degenerate pool. -/
theorem greedy_isSome (unsat : List Clause) (pick : Nat)
    (h : ∃ c ∈ unsat, c ≠ []) : (select_variable_greedy unsat pick).isSome = true := by
  unfold select_variable_greedy
  rw [if_neg]
  · rfl
  · simp only [List.isEmpty_iff]
    exact variable_frequency_ne_nil unsat h

/-- The random selector signals "no candidate" only on a degenerate pool. -/
theorem random_isSome (unsat : List Clause) (pick : Nat)
    (h : ∃ c ∈ unsat, c ≠ []) : (select_variable_random unsat pick).isSome = true := by
  unfold select_variable_random
  rw [if_neg]
  · rfl
  · simp only [List.isEmpty_iff]
    exact collectVars_ne_nil unsat h

/-- Inversion of a `stop` result of the enhanced step: it is either a
`satisfied` return with the oracle answering true, or the `var is None`
branch with a non-empty unsatisfied set on which a selector returned none. -/
theorem enhStep_stop_inv (rng : Rng) (flip : Nat) (st : EnhancedHybridSATSolver)
    (rs : RS) (o : Outcome) (tr : List Bool)
    (h : EnhancedHybridSATSolver.solveStep rng flip st rs = .stop o tr) :
    (o = .satisfied flip st.model ∧ st.is_satisfied = true) ∨
    (o = .inconsistent flip ∧ st.get_unsatisfied_clauses ≠ [] ∧
      (select_variable_greedy st.get_unsatisfied_clauses (rng.picks rs.ki) = none ∨
       select_variable_random st.get_unsatisfied_clauses (rng.picks rs.ki) = none)) := by
  unfold EnhancedHybridSATSolver.solveStep at h
  split at h
  · rename_i hsat
    injection h with h1 h2
    exact Or.inl ⟨h1.symm, hsat⟩
  · simp only at h
    split at h
    · rename_i hempty
      injection h with h1 h2
      exact Or.inl ⟨h1.symm, (enh_oracle_agree st).mpr (List.isEmpty_iff.mp hempty)⟩
    · rename_i hnempty
      split at h
      · rename_i hsel
        injection h with h1 h2
        refine Or.inr ⟨h1.symm, fun hnil => hnempty (by rw [hnil]; rfl), ?_⟩
        split at hsel
        · split at hsel
          · exact Or.inl hsel
          · exact Or.inr hsel
        · split at hsel
          · exact Or.inl hsel
          · exact Or.inr hsel
      · split at h
        · split at h <;> exact StepResult.noConfusion h
        · split at h <;> exact StepResult.noConfusion h

/-! ## C7: selectors never signal "no candidate" on healthy input -/

/-- C7: on a non-empty unsatisfied set of non-empty clauses both selectors
return some variable id, and consequently, for a formula with no empty
clause, the enhanced step never takes the Inconsistent return branch. -/
theorem C7_no_inconsistent :
    (∀ (unsat : List Clause) (pick : Nat), unsat ≠ [] → (∀ c ∈ unsat, c ≠ []) →
      (select_variable_greedy unsat pick).isSome = true ∧
      (select_variable_random unsat pick).isSome = true) ∧
    (∀ (rng : Rng) (flip : Nat) (st : EnhancedHybridSATSolver) (rs : RS)
        (f : Nat) (tr : List Bool), (∀ c ∈ st.clauses, c ≠ []) →
      EnhancedHybridSATSolver.solveStep rng flip st rs ≠ .stop (.inconsistent f) tr) := by
  constructor
  · intro unsat pick hne hcl
    have hex : ∃ c ∈ unsat, c ≠ [] := by
      obtain ⟨c, hc⟩ := List.exists_mem_of_ne_nil unsat hne
      exact ⟨c, hc, hcl c hc⟩
    exact ⟨greedy_isSome unsat pick hex, random_isSome unsat pick hex⟩
  · intro rng flip st rs f tr hcl h
    rcases enhStep_stop_inv rng flip st rs _ _ h with ⟨ho, _⟩ | ⟨_, hne, hsel⟩
    · exact Outcome.noConfusion ho
    · have hex : ∃ c ∈ st.get_unsatisfied_clauses, c ≠ [] := by
        obtain ⟨c, hc⟩ := List.exists_mem_of_ne_nil _ hne
        exact ⟨c, hc, hcl c (List.mem_filter.mp hc).1⟩
      rcases hsel with hsel | hsel
      · have hs := greedy_isSome st.get_unsatisfied_clauses (rng.picks rs.ki) hex
        rw [hsel] at hs
        exact Bool.noConfusion hs
      · have hs := random_isSome st.get_unsatisfied_clauses (rng.picks rs.ki) hex
        rw [hsel] at hs
        exact Bool.noConfusion hs

/-- C7 witness: on the concrete pool `[[1]]` both selectors return a
variable. -/
theorem C7_witness :
    (select_variable_greedy [[1]] 0).isSome = true ∧
    (select_variable_random [[1]] 0).isSome = true :=
  C7_no_inconsistent.1 [[1]] 0 (by decide) (by decide)

/-! ## Frame lemmas for the enhanced step -/

theorem adjust_p_clauses (st : EnhancedHybridSATSolver) :
    st.adjust_p.clauses = st.clauses := by
  simp only [EnhancedHybridSATSolver.adjust_p]
  split
  · rfl
  · split <;> rfl

theorem adjust_p_num_vars (st : EnhancedHybridSATSolver) :
    st.adjust_p.num_vars = st.num_vars := by
  simp only [EnhancedHybridSATSolver.adjust_p]
  split
  · rfl
  · split <;> rfl

theorem adjust_p_max_flips (st : EnhancedHybridSATSolver) :
    st.adjust_p.max_flips = st.max_flips := by
  simp only [EnhancedHybridSATSolver.adjust_p]
  split
  · rfl
  · split <;> rfl

theorem adjust_p_restart_frequency (st : EnhancedHybridSATSolver) :
    st.adjust_p.restart_frequency = st.restart_frequency := by
  simp only [EnhancedHybridSATSolver.adjust_p]
  split
  · rfl
  · split <;> rfl

theorem adjust_p_adaptive (st : EnhancedHybridSATSolver) :
    st.adjust_p.adaptive_p = st.adaptive_p := by
  simp only [EnhancedHybridSATSolver.adjust_p]
  split
  · rfl
  · split <;> rfl

theorem adjust_p_model (st : EnhancedHybridSATSolver) :
    st.adjust_p.model = st.model := by
  simp only [EnhancedHybridSATSolver.adjust_p]
  split
  · rfl
  · split <;> rfl

theorem adjust_p_fsr (st : EnhancedHybridSATSolver) :
    st.adjust_p.flips_since_restart = st.flips_since_restart := by
  simp only [EnhancedHybridSATSolver.adjust_p]
  split
  · rfl
  · split <;> rfl

/-- A `next` step preserves the configuration fields, and with adaptation
off it also preserves p. -/
theorem enhStep_next_frame (rng : Rng) (flip : Nat) (st : EnhancedHybridSATSolver)
    (rs : RS) (st' : EnhancedHybridSATSolver) (rs' : RS) (gate : Bool)
    (h : EnhancedHybridSATSolver.solveStep rng flip st rs = .next st' rs' gate) :
    st'.clauses = st.clauses ∧ st'.num_vars = st.num_vars ∧
    st'.max_flips = st.max_flips ∧ st'.restart_frequency = st.restart_frequency ∧
    st'.adaptive_p = st.adaptive_p ∧ (st.adaptive_p = false → st'.p = st.p) := by
  unfold EnhancedHybridSATSolver.solveStep at h
  split at h
  · exact StepResult.noConfusion h
  · simp only at h
    split at h
    · exact StepResult.noConfusion h
    · split at h
      · exact StepResult.noConfusion h
      · split at h
        · rename_i had
          split at h
          · injection h with h1 h2 h3
            rw [← h1]
            simp [EnhancedHybridSATSolver.restart, adjust_p_clauses, adjust_p_num_vars,
                  adjust_p_max_flips, adjust_p_restart_frequency, adjust_p_adaptive, had]
          · injection h with h1 h2 h3
            rw [← h1]
            simp [adjust_p_clauses, adjust_p_num_vars, adjust_p_max_flips,
                  adjust_p_restart_frequency, adjust_p_adaptive, had]
        · split at h
          · injection h with h1 h2 h3
            rw [← h1]
            simp [EnhancedHybridSATSolver.restart]
          · injection h with h1 h2 h3
            rw [← h1]
            simp

/-! ## C3: unsatisfiable formulas always exhaust the budget -/

/-- On a formula no assignment satisfies, with no empty clause, the loop
always runs out of fuel and reports `exhausted max_flips`. -/
theorem enh_solveLoop_unsat (rng : Rng) (cls : List Clause) (M : Nat)
    (hunsat : ∀ m : List Bool, cls.all (EnhancedHybridSATSolver.clauseSat m) = false)
    (hne : ∀ c ∈ cls, c ≠ []) :
    ∀ (k flip : Nat) (st : EnhancedHybridSATSolver) (rs : RS),
      st.clauses = cls → st.max_flips = M →
      (EnhancedHybridSATSolver.solveLoop rng k flip st rs).1 = .exhausted M := by
  intro k
  induction k with
  | zero =>
    intro flip st rs hc hM
    simp [EnhancedHybridSATSolver.solveLoop, hM]
  | succ k ih =>
    intro flip st rs hc hM
    rw [EnhancedHybridSATSolver.solveLoop]
    cases hstep : EnhancedHybridSATSolver.solveStep rng flip st rs with
    | stop o tr =>
      exfalso
      rcases enhStep_stop_inv rng flip st rs o tr hstep with ⟨_, hsat⟩ | ⟨_, hne2, hsel⟩
      · rw [EnhancedHybridSATSolver.is_satisfied, hc, hunsat st.model] at hsat
        exact Bool.noConfusion hsat
      · have hex : ∃ c ∈ st.get_unsatisfied_clauses, c ≠ [] := by
          obtain ⟨c, hcm⟩ := List.exists_mem_of_ne_nil _ hne2
          refine ⟨c, hcm, hne c ?_⟩
          rw [← hc]
          exact (List.mem_filter.mp hcm).1
        rcases hsel with hsel | hsel
        · have hs := greedy_isSome st.get_unsatisfied_clauses (rng.picks rs.ki) hex
          rw [hsel] at hs
          exact Bool.noConfusion hs
        · have hs := random_isSome st.get_unsatisfied_clauses (rng.picks rs.ki) hex
          rw [hsel] at hs
          exact Bool.noConfusion hs
    | next st' rs' gate =>
      dsimp only
      obtain ⟨h1, _, h3, _, _, _⟩ := enhStep_next_frame rng flip st rs st' rs' gate hstep
      exact ih (flip + 1) st' rs' (h1.trans hc) (h3.trans hM)

/-- C3: an unsatisfiable formula with no empty clause, any p in [0,1] and any
positive flip budget makes `solve` return `exhausted` with flip count
`max_flips`; the Satisfied and Inconsistent outcomes never occur. -/
theorem C3_unsat_exhausts (st : EnhancedHybridSATSolver) (rng : Rng) (rs : RS)
    (hunsat : ∀ m : List Bool,
      st.clauses.all (EnhancedHybridSATSolver.clauseSat m) = false)
    (hne : ∀ c ∈ st.clauses, c ≠ [])
    (_hp : 0 ≤ st.p ∧ st.p ≤ 1) (_hM : 0 < st.max_flips) :
    (st.solve rng rs).1 = .exhausted st.max_flips := by
  unfold EnhancedHybridSATSolver.solve
  exact enh_solveLoop_unsat rng st.clauses st.max_flips hunsat hne st.max_flips 1 st rs rfl rfl

/-- C3 witness: the unsatisfiable formula `[[1], [-1]]` with p = 1/2 and a
budget of 2 flips returns `exhausted 2`. -/
theorem C3_witness :
    (((EnhancedHybridSATSolver.init [[1], [-1]] 1 (1 / 2) 2 1000 false
        (fun _ => true) 0).1.solve rngAllTrue rs0).1 = .exhausted 2) :=
  C3_unsat_exhausts
    (EnhancedHybridSATSolver.init [[1], [-1]] 1 (1 / 2) 2 1000 false (fun _ => true) 0).1
    rngAllTrue rs0
    (fun m => by
      show ([[1], [-1]] : List Clause).all (EnhancedHybridSATSolver.clauseSat m) = false
      simp [EnhancedHybridSATSolver.clauseSat, EnhancedHybridSATSolver.litSat])
    (by decide)
    ⟨by show (0 : ℚ) ≤ 1 / 2; norm_num, by show (1 : ℚ) / 2 ≤ 1; norm_num⟩
    (by show (0 : Nat) < 2; norm_num)

/-! ## C5: restart effect and frame -/

/-- C5: when an applied flip makes the flips-since-restart counter reach
`restart_frequency`, the step redraws the whole model from the coin stream,
resets the counter to 0, and leaves p (as possibly adapted this iteration),
the flip budget `max_flips`, and `restart_frequency` unchanged; the loop
counter itself is not touched by the step. -/
theorem C5_restart_resets (rng : Rng) (flip : Nat) (st : EnhancedHybridSATSolver)
    (rs : RS) (st' : EnhancedHybridSATSolver) (rs' : RS) (gate : Bool)
    (hstep : EnhancedHybridSATSolver.solveStep rng flip st rs = .next st' rs' gate)
    (hreach : st.flips_since_restart + 1 ≥ st.restart_frequency) :
    st'.model = drawModel rng.coins rs.ci st.num_vars ∧
    st'.flips_since_restart = 0 ∧
    st'.p = (if st.adaptive_p then st.adjust_p else st).p ∧
    st'.max_flips = st.max_flips ∧
    st'.restart_frequency = st.restart_frequency ∧
    rs'.ci = rs.ci + st.num_vars + 1 := by
  unfold EnhancedHybridSATSolver.solveStep at hstep
  split at hstep
  · exact StepResult.noConfusion hstep
  · simp only at hstep
    split at hstep
    · exact StepResult.noConfusion hstep
    · split at hstep
      · exact StepResult.noConfusion hstep
      · by_cases had : st.adaptive_p = true
        · rw [if_pos had] at hstep
          split at hstep
          · injection hstep with h1 h2 h3
            rw [← h1, ← h2]
            simp [EnhancedHybridSATSolver.restart, adjust_p_num_vars, adjust_p_max_flips,
                  adjust_p_restart_frequency, had]
          · rename_i hlt
            exact absurd (by simpa [adjust_p_fsr, adjust_p_restart_frequency] using hreach) hlt
        · rw [if_neg had] at hstep
          split at hstep
          · injection hstep with h1 h2 h3
            rw [← h1, ← h2]
            simp [EnhancedHybridSATSolver.restart, had]
          · rename_i hlt
            exact absurd hreach hlt

/-- C5 witness: on `preRestartState` the step applies one flip, restarts,
redraws the model from the coin stream and resets the counter. -/
theorem C5_witness :
    ({ clauses := [[1]], num_vars := 1, p := 0, max_flips := 5, restart_frequency := 1,
       adaptive_p := false, model := [true, true], flips_since_restart := 0 } :
        EnhancedHybridSATSolver).model = drawModel rngAllTrue.coins rs0.ci 1 ∧
    (0 : Nat) = 0 ∧
    (0 : ℚ) = (if preRestartState.adaptive_p then preRestartState.adjust_p
               else preRestartState).p ∧
    (5 : Nat) = 5 ∧ (1 : Nat) = 1 ∧ (2 : Nat) = 0 + 1 + 1 := by
  have h := C5_restart_resets rngAllTrue 1 preRestartState rs0
    { clauses := [[1]], num_vars := 1, p := 0, max_flips := 5, restart_frequency := 1,
      adaptive_p := false, model := [true, true], flips_since_restart := 0 }
    ⟨2, 1, 1⟩ false rfl (by decide)
  exact ⟨h.1, h.2.1, h.2.2.1, h.2.2.2.1, h.2.2.2.2.1, h.2.2.2.2.2⟩

/-! ## Gate characterization and greedy-selector spec -/

/-- The gate recorded by a step is always `random.random() < p` evaluated at
the (possibly adapted) p of that iteration. -/
theorem enhStep_gate_val (rng : Rng) (flip : Nat) (st : EnhancedHybridSATSolver) (rs : RS) :
    (∀ st' rs' gate, EnhancedHybridSATSolver.solveStep rng flip st rs = .next st' rs' gate →
      gate = decide (rng.gates rs.gi < (if st.adaptive_p then st.adjust_p else st).p)) ∧
    (∀ o tr, EnhancedHybridSATSolver.solveStep rng flip st rs = .stop o tr →
      tr = [] ∨
      tr = [decide (rng.gates rs.gi < (if st.adaptive_p then st.adjust_p else st).p)]) := by
  constructor
  · intro st' rs' gate h
    unfold EnhancedHybridSATSolver.solveStep at h
    split at h
    · exact StepResult.noConfusion h
    · simp only at h
      split at h
      · exact StepResult.noConfusion h
      · split at h
        · exact StepResult.noConfusion h
        · split at h
          · rename_i had
            split at h
            · injection h with h1 h2 h3
              rw [if_pos had]
              exact h3.symm
            · injection h with h1 h2 h3
              rw [if_pos had]
              exact h3.symm
          · rename_i had
            split at h
            · injection h with h1 h2 h3
              rw [if_neg had]
              exact h3.symm
            · injection h with h1 h2 h3
              rw [if_neg had]
              exact h3.symm
  · intro o tr h
    unfold EnhancedHybridSATSolver.solveStep at h
    split at h
    · injection h with h1 h2
      exact Or.inl h2.symm
    · simp only at h
      split at h
      · injection h with h1 h2
        exact Or.inl h2.symm
      · split at h
        · injection h with h1 h2
          exact Or.inr h2.symm
        · split at h
          · split at h <;> exact StepResult.noConfusion h
          · split at h <;> exact StepResult.noConfusion h

theorem foldl_max_le_self : ∀ (l : List Nat) (a : Nat), a ≤ l.foldl max a := by
  intro l
  induction l with
  | nil => intro a; exact le_refl a
  | cons x l ih => intro a; exact le_trans (Nat.le_max_left a x) (ih (max a x))

theorem foldl_max_ge_mem : ∀ (l : List Nat) (a x : Nat), x ∈ l → x ≤ l.foldl max a := by
  intro l
  induction l with
  | nil => intro a x hx; cases hx
  | cons y l ih =>
    intro a x hx
    rcases List.mem_cons.mp hx with rfl | hx
    · exact le_trans (Nat.le_max_right a x) (foldl_max_le_self l (max a x))
    · exact ih (max a y) x hx

theorem foldl_max_mem_or (l : List Nat) : ∀ a : Nat, l.foldl max a = a ∨ l.foldl max a ∈ l := by
  induction l with
  | nil => intro a; exact Or.inl rfl
  | cons y l ih =>
    intro a
    rcases ih (max a y) with h | h
    · rcases max_choice a y with hm | hm
      · exact Or.inl (by rw [List.foldl_cons, h, hm])
      · exact Or.inr (by rw [List.foldl_cons, h, hm]; exact List.mem_cons_self y l)
    · exact Or.inr (List.mem_cons_of_mem y h)

/-- Python `max(freq.values())` is attained by some entry of a non-empty table. -/
theorem maxFreq_attained (freq : List (Nat × Nat)) (h : freq ≠ []) :
    ∃ wd ∈ freq, wd.2 = (freq.map Prod.snd).foldl max 0 := by
  rcases foldl_max_mem_or (freq.map Prod.snd) 0 with h0 | hmem
  · obtain ⟨wd, hwd⟩ := List.exists_mem_of_ne_nil freq h
    refine ⟨wd, hwd, ?_⟩
    have hle : wd.2 ≤ (freq.map Prod.snd).foldl max 0 :=
      foldl_max_ge_mem _ 0 _ (List.mem_map_of_mem Prod.snd hwd)
    omega
  · obtain ⟨wd, hwd, heq⟩ := List.mem_map.mp hmem
    exact ⟨wd, hwd, heq⟩

theorem getD_mem_of_lt (l : List Nat) (i : Nat) (hi : i < l.length) : l.getD i 0 ∈ l := by
  rw [List.getD_eq_getElem l 0 hi]
  exact List.getElem_mem hi

/-- Whatever the tie-break draw, the greedy selector returns a variable of
maximal frequency. -/
theorem greedy_max_freq (unsat : List Clause) (pick : Nat) (v : Nat)
    (h : select_variable_greedy unsat pick = some v) :
    ∃ c, (v, c) ∈ variable_frequency unsat ∧
      ∀ wd ∈ variable_frequency unsat, wd.2 ≤ c := by
  simp only [select_variable_greedy] at h
  split at h
  · exact Option.noConfusion h
  · rename_i hne
    have hne' : variable_frequency unsat ≠ [] := by
      simpa [List.isEmpty_iff] using hne
    injection h with hv
    obtain ⟨wd0, hwd0, hwd0eq⟩ := maxFreq_attained (variable_frequency unsat) hne'
    set freq := variable_frequency unsat with hfreq
    set maxFreq := (freq.map Prod.snd).foldl max 0 with hmax
    set candidates := (freq.filter (fun vc => vc.2 = maxFreq)).map Prod.fst with hcand
    have hcne : candidates ≠ [] := by
      have : wd0.1 ∈ candidates := by
        apply List.mem_map_of_mem Prod.fst
        rw [List.mem_filter]
        exact ⟨hwd0, by simp [hwd0eq]⟩
      exact List.ne_nil_of_mem this
    have hlen : pick % candidates.length < candidates.length :=
      Nat.mod_lt _ (List.length_pos.mpr hcne)
    have hvmem : v ∈ candidates := hv ▸ getD_mem_of_lt candidates _ hlen
    obtain ⟨wd, hwdf, hwd1⟩ := List.mem_map.mp hvmem
    have hwdmem : wd ∈ freq := (List.mem_filter.mp hwdf).1
    have hwd2 : wd.2 = maxFreq := by
      have := (List.mem_filter.mp hwdf).2
      exact of_decide_eq_true this
    refine ⟨maxFreq, ?_, ?_⟩
    · have : (wd.1, wd.2) ∈ freq := by
        rw [Prod.mk.eta]
        exact hwdmem
      rw [hwd1, hwd2] at this
      exact this
    · intro wd' hwd'
      exact foldl_max_ge_mem _ 0 _ (List.mem_map_of_mem Prod.snd hwd')

/-- With a unique maximal entry, the greedy selector is deterministic: every
tie-break draw yields the same variable. -/
theorem greedy_unique (unsat : List Clause) (pick : Nat) (v₀ c₀ : Nat)
    (hmem : (v₀, c₀) ∈ variable_frequency unsat)
    (huniq : ∀ wd ∈ variable_frequency unsat, wd ≠ (v₀, c₀) → wd.2 < c₀) :
    select_variable_greedy unsat pick = some v₀ := by
  simp only [select_variable_greedy]
  rw [if_neg (by
    simp only [List.isEmpty_iff]
    exact List.ne_nil_of_mem hmem)]
  set freq := variable_frequency unsat with hfreq
  set maxFreq := (freq.map Prod.snd).foldl max 0 with hmax
  have hub : c₀ ≤ maxFreq :=
    foldl_max_ge_mem _ 0 _ (List.mem_map_of_mem Prod.snd hmem)
  have hmaxc : maxFreq = c₀ := by
    obtain ⟨wd, hwd, hwdeq⟩ := maxFreq_attained freq (List.ne_nil_of_mem hmem)
    by_cases hw : wd = (v₀, c₀)
    · rw [hw] at hwdeq
      omega
    · have := huniq wd hwd hw
      omega
  set candidates := (freq.filter (fun vc => vc.2 = maxFreq)).map Prod.fst with hcand
  have hcv : ∀ x ∈ candidates, x = v₀ := by
    intro x hx
    obtain ⟨wd, hwdf, hwd1⟩ := List.mem_map.mp hx
    have hwdmem : wd ∈ freq := (List.mem_filter.mp hwdf).1
    have hwd2 : wd.2 = c₀ := by
      have := of_decide_eq_true (List.mem_filter.mp hwdf).2
      omega
    by_cases hw : wd = (v₀, c₀)
    · rw [← hwd1, hw]
    · have := huniq wd hwdmem hw
      omega
  have hcne : candidates ≠ [] := by
    have : (v₀, c₀).1 ∈ candidates := by
      apply List.mem_map_of_mem Prod.fst
      rw [List.mem_filter]
      exact ⟨hmem, by simp [hmaxc]⟩
    exact List.ne_nil_of_mem this
  have hlen : pick % candidates.length < candidates.length :=
    Nat.mod_lt _ (List.length_pos.mpr hcne)
  exact congrArg some (hcv _ (getD_mem_of_lt candidates _ hlen))

/-! ## Trace lemmas: which selector runs under extreme p -/

/-- With fixed p = 1 and gate draws below 1, every recorded gate is true:
the greedy selector is consulted at every selecting iteration. -/
theorem enh_trace_p_one (rng : Rng) (hg : ∀ i, rng.gates i < 1) :
    ∀ (k flip : Nat) (st : EnhancedHybridSATSolver) (rs : RS),
      st.p = 1 → st.adaptive_p = false →
      ∀ g ∈ (EnhancedHybridSATSolver.solveLoop rng k flip st rs).2, g = true := by
  intro k
  induction k with
  | zero =>
    intro flip st rs hp had g hG
    simp [EnhancedHybridSATSolver.solveLoop] at hG
  | succ k ih =>
    intro flip st rs hp had g hG
    rw [EnhancedHybridSATSolver.solveLoop] at hG
    cases hstep : EnhancedHybridSATSolver.solveStep rng flip st rs with
    | stop o tr =>
      rw [hstep] at hG
      dsimp only at hG
      rcases (enhStep_gate_val rng flip st rs).2 o tr hstep with h0 | h1
      · rw [h0] at hG
        cases hG
      · rw [h1] at hG
        rw [List.mem_singleton.mp hG, had]
        simpa [hp] using hg rs.gi
    | next st' rs' gate =>
      rw [hstep] at hG
      dsimp only at hG
      rcases List.mem_cons.mp hG with rfl | hG2
      · rw [(enhStep_gate_val rng flip st rs).1 st' rs' g hstep, had]
        simpa [hp] using hg rs.gi
      · obtain ⟨_, _, _, _, ha, hpp⟩ := enhStep_next_frame rng flip st rs st' rs' gate hstep
        exact ih (flip + 1) st' rs' (by rw [hpp had, hp]) (by rw [ha, had]) g hG2

/-- With fixed p = 0 and non-negative gate draws, every recorded gate is
false: the greedy selector is never consulted. -/
theorem enh_trace_p_zero (rng : Rng) (hg : ∀ i, 0 ≤ rng.gates i) :
    ∀ (k flip : Nat) (st : EnhancedHybridSATSolver) (rs : RS),
      st.p = 0 → st.adaptive_p = false →
      ∀ g ∈ (EnhancedHybridSATSolver.solveLoop rng k flip st rs).2, g = false := by
  intro k
  induction k with
  | zero =>
    intro flip st rs hp had g hG
    simp [EnhancedHybridSATSolver.solveLoop] at hG
  | succ k ih =>
    intro flip st rs hp had g hG
    rw [EnhancedHybridSATSolver.solveLoop] at hG
    cases hstep : EnhancedHybridSATSolver.solveStep rng flip st rs with
    | stop o tr =>
      rw [hstep] at hG
      dsimp only at hG
      rcases (enhStep_gate_val rng flip st rs).2 o tr hstep with h0 | h1
      · rw [h0] at hG
        cases hG
      · rw [h1] at hG
        rw [List.mem_singleton.mp hG, had]
        simpa [hp] using not_lt.mpr (hg rs.gi)
    | next st' rs' gate =>
      rw [hstep] at hG
      dsimp only at hG
      rcases List.mem_cons.mp hG with rfl | hG2
      · rw [(enhStep_gate_val rng flip st rs).1 st' rs' g hstep, had]
        simpa [hp] using not_lt.mpr (hg rs.gi)
      · obtain ⟨_, _, _, _, ha, hpp⟩ := enhStep_next_frame rng flip st rs st' rs' gate hstep
        exact ih (flip + 1) st' rs' (by rw [hpp had, hp]) (by rw [ha, had]) g hG2

/-! ## C8: greedy maximality, p = 1 gating, unique-maximum determinism -/

/-- C8: the greedy selector always returns a variable of maximal occurrence
frequency over the unsatisfied clauses; with fixed p = 1 (and gate draws in
[0,1)) the greedy path is taken at every selecting iteration; and when the
maximal-frequency entry is unique, the selection is the same for every
tie-break draw. -/
theorem C8_greedy_deterministic :
    (∀ (unsat : List Clause) (pick v : Nat),
       select_variable_greedy unsat pick = some v →
       ∃ c, (v, c) ∈ variable_frequency unsat ∧
         ∀ wd ∈ variable_frequency unsat, wd.2 ≤ c) ∧
    (∀ (unsat : List Clause) (pick v₀ c₀ : Nat),
       (v₀, c₀) ∈ variable_frequency unsat →
       (∀ wd ∈ variable_frequency unsat, wd ≠ (v₀, c₀) → wd.2 < c₀) →
       select_variable_greedy unsat pick = some v₀) ∧
    (∀ (rng : Rng) (k flip : Nat) (st : EnhancedHybridSATSolver) (rs : RS),
       st.p = 1 → st.adaptive_p = false → (∀ i, rng.gates i < 1) →
       ∀ g ∈ (EnhancedHybridSATSolver.solveLoop rng k flip st rs).2, g = true) :=
  ⟨greedy_max_freq, greedy_unique,
   fun rng k flip st rs hp had hg => enh_trace_p_one rng hg k flip st rs hp had⟩

/-- C8 witness: on unsatisfied clauses `[[1,2],[1]]` variable 1 has the
unique maximal frequency 2, and the greedy selector returns it for an
arbitrary tie-break draw. -/
theorem C8_witness : select_variable_greedy [[1, 2], [1]] 7 = some 1 :=
  C8_greedy_deterministic.2.1 [[1, 2], [1]] 7 1 2 (by decide) (by decide)

/-! ## C10: with p = 0 the greedy path is never taken -/

/-- C10: in a run with fixed p = 0 (adaptation off) and non-negative gate
draws, no iteration of `solve` ever takes the greedy path: every recorded
gate is false, so every selection used the random selector. -/
theorem C10_greedy_never_invoked (st : EnhancedHybridSATSolver) (rng : Rng) (rs : RS)
    (hp : st.p = 0) (had : st.adaptive_p = false) (hg : ∀ i, 0 ≤ rng.gates i) :
    ∀ g ∈ (st.solve rng rs).2, g = false := by
  unfold EnhancedHybridSATSolver.solve
  exact enh_trace_p_zero rng hg st.max_flips 1 st rs hp had

/-- C10 witness: in a concrete p = 0 run the trace is non-empty and the
recorded gate is false. -/
theorem C10_witness :
    false ∈ (pZeroState.solve rngAllTrue rs0).2 ∧ (false : Bool) = false :=
  ⟨by decide,
   C10_greedy_never_invoked pZeroState rngAllTrue rs0 rfl rfl (fun _ => le_refl 0)
     false (by decide)⟩

/-! ## C9: with adaptation off and restart_frequency ≥ max_flips, the
enhanced solver agrees with the plain solver draw-for-draw -/

theorem litSat_agree (m : List Bool) (l : Int) :
    HybridSATSolver.litSat m l = EnhancedHybridSATSolver.litSat m l := by
  unfold HybridSATSolver.litSat EnhancedHybridSATSolver.litSat
  cases h1 : (decide (l > 0) && m.getD l.natAbs false) <;>
    cases h2 : (decide (l < 0) && !(m.getD l.natAbs false)) <;>
      simp [h1, h2]

theorem clauseSat_agree (m : List Bool) (c : Clause) :
    HybridSATSolver.clauseSat m c = EnhancedHybridSATSolver.clauseSat m c := by
  unfold HybridSATSolver.clauseSat EnhancedHybridSATSolver.clauseSat
  exact congrArg (List.any c) (funext (litSat_agree m))

theorem is_satisfied_agree (se : EnhancedHybridSATSolver) (sp : HybridSATSolver)
    (hc : se.clauses = sp.clauses) (hm : se.model = sp.model) :
    se.is_satisfied = sp.is_satisfied := by
  unfold EnhancedHybridSATSolver.is_satisfied HybridSATSolver.is_satisfied
  rw [hc, hm]
  exact congrArg (List.all sp.clauses) (funext fun c => (clauseSat_agree sp.model c).symm)

theorem get_unsat_agree (se : EnhancedHybridSATSolver) (sp : HybridSATSolver)
    (hc : se.clauses = sp.clauses) (hm : se.model = sp.model) :
    se.get_unsatisfied_clauses = sp.get_unsatisfied_clauses := by
  unfold EnhancedHybridSATSolver.get_unsatisfied_clauses
    HybridSATSolver.get_unsatisfied_clauses
  rw [hc, hm]
  exact congrArg (fun q => List.filter q sp.clauses)
    (funext fun c => by rw [clauseSat_agree])

/-- The two solve loops coincide, outcome and trace, while the restart
threshold stays out of reach of the remaining budget. -/
theorem loops_agree (rng : Rng) :
    ∀ (k flip : Nat) (se : EnhancedHybridSATSolver) (sp : HybridSATSolver) (rs : RS),
      se.clauses = sp.clauses → se.p = sp.p → se.max_flips = sp.max_flips →
      se.model = sp.model → se.adaptive_p = false →
      se.max_flips ≤ se.restart_frequency →
      se.flips_since_restart + 1 = flip →
      flip + k = se.max_flips + 1 →
      EnhancedHybridSATSolver.solveLoop rng k flip se rs =
        HybridSATSolver.solveLoop rng k flip sp rs := by
  intro k
  induction k with
  | zero =>
    intro flip se sp rs hc hp hM hm hadapt hrf hfsr hflip
    rw [EnhancedHybridSATSolver.solveLoop, HybridSATSolver.solveLoop, hM]
  | succ k ih =>
    intro flip se sp rs hc hp hM hm hadapt hrf hfsr hflip
    have his : se.is_satisfied = sp.is_satisfied := is_satisfied_agree se sp hc hm
    have hgu : se.get_unsatisfied_clauses = sp.get_unsatisfied_clauses :=
      get_unsat_agree se sp hc hm
    rw [EnhancedHybridSATSolver.solveLoop, HybridSATSolver.solveLoop]
    simp only [EnhancedHybridSATSolver.solveStep, HybridSATSolver.solveStep]
    rw [his, hgu, hadapt, if_neg Bool.false_ne_true, hm, hp]
    by_cases hsat : sp.is_satisfied = true
    · rw [if_pos hsat, if_pos hsat]
    · rw [if_neg hsat, if_neg hsat]
      by_cases hemp : sp.get_unsatisfied_clauses.isEmpty = true
      · rw [if_pos hemp, if_pos hemp]
      · rw [if_neg hemp, if_neg hemp]
        cases hv : (if decide (rng.gates rs.gi < sp.p) = true
            then select_variable_greedy sp.get_unsatisfied_clauses (rng.picks rs.ki)
            else select_variable_random sp.get_unsatisfied_clauses (rng.picks rs.ki)) with
        | none => rfl
        | some var =>
          dsimp only
          rcases Nat.eq_zero_or_pos k with rfl | hk
          · by_cases hrest : se.flips_since_restart + 1 ≥ se.restart_frequency
            · rw [if_pos hrest]
              dsimp only
              rw [EnhancedHybridSATSolver.solveLoop, HybridSATSolver.solveLoop]
              simp [EnhancedHybridSATSolver.restart, hM]
            · rw [if_neg hrest]
              dsimp only
              rw [EnhancedHybridSATSolver.solveLoop, HybridSATSolver.solveLoop]
              simp [hM]
          · have hnr : ¬ (se.flips_since_restart + 1 ≥ se.restart_frequency) := by omega
            rw [if_neg hnr]
            dsimp only
            rw [ih (flip + 1)]
            · exact hc
            · rfl
            · exact hM
            · rfl
            · exact hadapt
            · exact hrf
            · dsimp only
              omega
            · dsimp only
              omega

/-- C9: with adaptation off and restart_frequency at least max_flips, the
enhanced solver's solve produces exactly the plain solver's result — same
outcome tag, flip count and assignment (and the same selector trace) — when
both consume the identical ordered random draw streams from the same
cursors. -/
theorem C9_enhanced_equals_plain (se : EnhancedHybridSATSolver) (sp : HybridSATSolver)
    (rng : Rng) (rs : RS)
    (hc : se.clauses = sp.clauses) (hp : se.p = sp.p) (hM : se.max_flips = sp.max_flips)
    (hm : se.model = sp.model) (hadapt : se.adaptive_p = false)
    (hrf : se.max_flips ≤ se.restart_frequency) (hfsr : se.flips_since_restart = 0) :
    se.solve rng rs = sp.solve rng rs := by
  unfold EnhancedHybridSATSolver.solve HybridSATSolver.solve
  rw [hM]
  exact loops_agree rng sp.max_flips 1 se sp rs hc hp hM hm hadapt hrf (by omega) (by omega)

/-- C9 witness: on the concrete unsatisfiable instance `[[1], [-1]]` with
p = 1/2, max_flips = 2 and restart_frequency = 2, both solvers produce the
same result from the same draws. -/
theorem C9_witness :
    (EnhancedHybridSATSolver.init [[1], [-1]] 1 (1 / 2) 2 2 false (fun _ => true) 0).1.solve
        rngAllTrue rs0 =
      (HybridSATSolver.init [[1], [-1]] 1 (1 / 2) 2 (fun _ => true) 0).1.solve
        rngAllTrue rs0 :=
  C9_enhanced_equals_plain
    (EnhancedHybridSATSolver.init [[1], [-1]] 1 (1 / 2) 2 2 false (fun _ => true) 0).1
    (HybridSATSolver.init [[1], [-1]] 1 (1 / 2) 2 (fun _ => true) 0).1
    rngAllTrue rs0 rfl rfl rfl rfl rfl (by decide) rfl
